import Mathlib

/-
Verification of the autodeps repository (indexer.py and autodeps.py):
a shallow embedding of its indexing pipeline (path resolution, rule
extraction, class scanning) and of its dependency resolver, together
with theorems settling the specified properties.

The filesystem, the archive reader (zipfile namelist) and the external
build-graph queries are modelled as explicit function parameters; Python
exceptions are modelled with `Option` (`none` = the operation raised).
-/

set_option autoImplicit false

namespace Autodeps

/-! ## Python string primitives (over `String.data : List Char`) -/

/-- Characters stripped by Python `str.strip()` / split on by `str.split()`. -/
def pyIsSpace (c : Char) : Bool :=
  c == ' ' || c == '\t' || c == '\n' || c == '\r' || c == '\x0b' || c == '\x0c'

/-- Python `s.startswith(t)`. -/
def pyStartsWith (s t : String) : Bool :=
  t.data.isPrefixOf s.data

/-- Python `s.endswith(t)`. -/
def pyEndsWith (s t : String) : Bool :=
  t.data.isSuffixOf s.data

/-- Python `s[n:]` (used to model `removeprefix` after a `startswith` guard). -/
def pyDrop (s : String) (n : Nat) : String :=
  ⟨s.data.drop n⟩

/-- Left-to-right non-overlapping replacement, fuelled to keep the
recursion structural; the fuel is the length of the scanned list, which
is enough since every step consumes at least one character.  Patterns in
this development are nonempty (`":"`, `"//:"`, `"//"`, `"/"`). -/
def replaceFuel (pat rep : List Char) : Nat → List Char → List Char
  | _, [] => []
  | 0, s => s
  | Nat.succ fuel, c :: cs =>
    if !pat.isEmpty && pat.isPrefixOf (c :: cs) then
      rep ++ replaceFuel pat rep fuel ((c :: cs).drop pat.length)
    else
      c :: replaceFuel pat rep fuel cs

/-- Python `s.replace(pat, rep)` (for nonempty `pat`). -/
def pyReplace (s pat rep : String) : String :=
  ⟨replaceFuel pat.data rep.data s.data.length s.data⟩

/-- Python `s.removesuffix(suf)`. -/
def pyRemoveSuffix (s suf : String) : String :=
  if pyEndsWith s suf then ⟨s.data.take (s.data.length - suf.data.length)⟩ else s

/-- Python truthiness of an optional string: `None` and `""` are falsy. -/
def option_truthy : Option String → Option String
  | none => none
  | some s => if s = "" then none else some s

/-! ## Path resolution (indexer.py: `_get_full_path_under_output`, `_guess_jar_full_path`) -/

/-- `os.path.join(a, b)` for POSIX paths, the only form the source uses. -/
def osPathJoin (a b : String) : String :=
  if pyStartsWith b "/" then b
  else if a = "" || pyEndsWith a "/" then a ++ b
  else a ++ "/" ++ b

/-- The ambient bazel directories (`DepsParser.__init__`): the workspace
directory, and the `output_base` / `bazel-bin` reported by `bazel info`. -/
structure BazelInfo where
  workspace : String
  output_base : String
  bazel_bin : String
  deriving DecidableEq

/-- The probing loop of `_get_full_path_under_output`: join each root with
the relative path in order and return the first join that exists. -/
def probe_roots (fs : String → Bool) (relative_path : String) : List String → Option String
  | [] => none
  | r :: rest =>
    if fs (osPathJoin r relative_path) then some (osPathJoin r relative_path)
    else probe_roots fs relative_path rest

/-- `_get_full_path_under_output(relative_path)`: probe the workspace root,
then the output base, then bazel-bin. `fs` is the filesystem
(`os.path.exists`). -/
def get_full_path_under_output (fs : String → Bool) (info : BazelInfo)
    (relative_path : String) : Option String :=
  probe_roots fs relative_path [info.workspace, info.output_base, info.bazel_bin]

/-- `_guess_jar_full_path(jar)`: dispatch on the form of the symbolic
reference (`//...` workspace target, `@repo//...` external target,
`bazel-out/...` generated output) and probe the transformed relative path;
any falsy guess result falls through to `None`. -/
def guess_jar_full_path (fs : String → Bool) (info : BazelInfo) (jar : String) :
    Option String :=
  if pyStartsWith jar "//" then
    option_truthy (get_full_path_under_output fs info (pyReplace (pyDrop jar 2) ":" "/"))
  else if pyStartsWith jar "@" then
    option_truthy (get_full_path_under_output fs info
      (osPathJoin "external"
        (pyReplace (pyReplace (pyReplace (pyDrop jar 1) "//:" "/") "//" "/") ":" "/")))
  else if pyStartsWith jar "bazel-out" then
    option_truthy (get_full_path_under_output fs info jar)
  else none

/-! ## The spec's §4.2 resolver, for comparison with `guess_jar_full_path` -/

/-- Modelled from the spec: strategy 1, the workspace-local guess, applicable
to workspace-root-relative references. -/
def spec_workspace_guess (fs : String → Bool) (info : BazelInfo) (jar : String) :
    Option String :=
  if pyStartsWith jar "//" then
    option_truthy (get_full_path_under_output fs info (pyReplace (pyDrop jar 2) ":" "/"))
  else none

/-- Modelled from the spec: strategy 2, the external-repository guess,
applicable to external-repository references. -/
def spec_external_guess (fs : String → Bool) (info : BazelInfo) (jar : String) :
    Option String :=
  if pyStartsWith jar "@" then
    option_truthy (get_full_path_under_output fs info
      (osPathJoin "external"
        (pyReplace (pyReplace (pyReplace (pyDrop jar 1) "//:" "/") "//" "/") ":" "/")))
  else none

/-- Modelled from the spec: strategy 3, the generated-output guess,
applicable to references that already look like generated-output paths. -/
def spec_generated_guess (fs : String → Bool) (info : BazelInfo) (jar : String) :
    Option String :=
  if pyStartsWith jar "bazel-out" then
    option_truthy (get_full_path_under_output fs info jar)
  else none

/-- Modelled from the spec: strategies 1-3 tried in order, first success wins. -/
def spec_guesses (fs : String → Bool) (info : BazelInfo) (jar : String) :
    Option String :=
  match spec_workspace_guess fs info jar with
  | some p => some p
  | none =>
    match spec_external_guess fs info jar with
    | some p => some p
    | none => spec_generated_guess fs info jar

/-- External collaborators of the spec's §4.2 strategy 4: the filesystem,
the state of the filesystem after force-building a given rule, and the
graph output-location query for a reference. -/
structure ResolverEnv where
  fs : String → Bool
  after_build : String → String → Bool
  output_location : String → List String

/-- Modelled from the spec: the full four-strategy cascade of §4.2 — the
three guesses, then a force-build of `ruleName` followed by one retry of
the guesses, then the graph output-location query used only if it returns
exactly one result; `none` stands for the `UnresolvableArchive` failure.
This strategy-4 fallback has no counterpart under src/. -/
def resolveSpec (env : ResolverEnv) (info : BazelInfo) (jar ruleName : String) :
    Option String :=
  match spec_guesses env.fs info jar with
  | some p => some p
  | none =>
    match spec_guesses (env.after_build ruleName) info jar with
    | some p => some p
    | none =>
      match env.output_location jar with
      | [p] => some p
      | _ => none

/-! ## Archive inspection and the class scan (indexer.py) -/

/-- `JvmLib` (a namedtuple in the source): any JVM-like library rule, with
its name, candidate jars, declared exports and visibility, and the class
list filled in by the scan.  A jar entry is `none` when the source stored
Python `None` there (a failed `_guess_jar_full_path`). -/
structure JvmLib where
  name : String
  jars : List (Option String)
  exports : Option (List String)
  visibility : Option (List String)
  classes : List String
  deriving DecidableEq

/-- The external collaborators of the index builder: the filesystem
(`os.path.exists`), the bazel directories, the archive reader (`zipfile`
namelist; `none` = the archive is missing or corrupt and opening it raises)
and the graph output query (`bazel.get_outputs` before suffix filtering). -/
structure Env where
  fs : String → Bool
  info : BazelInfo
  zipfs : String → Option (List String)
  outputs : String → List String

/-- `get_class_names_from_jar(jar_file)`: the entries whose name ends in
`.class`, path separators replaced by dots and the suffix stripped;
`none` when opening the archive raises. -/
def get_class_names_from_jar (zipfs : String → Option (List String)) (jar_file : String) :
    Option (List String) :=
  (zipfs jar_file).map (fun names =>
    (names.filter (fun n => pyEndsWith n ".class")).map
      (fun n => pyRemoveSuffix (pyReplace n "/" ".") ".class"))

/-- `_record_classes_from_rule(rule, jar)`: an absolute jar (POSIX
`os.path.isabs`) is used as is, otherwise it is located under the output
roots; the classes of the jar are appended to the rule's class list.
`none` models the exception raised when the jar is `None`, cannot be
located (`ZipFile(None)`) or cannot be read. -/
def record_classes_from_rule (env : Env) (classes : List String) (jar : Option String) :
    Option (List String) :=
  match jar with
  | none => none
  | some j =>
    match (if pyStartsWith j "/" then some j
           else get_full_path_under_output env.fs env.info j) with
    | none => none
    | some jar_file =>
      match get_class_names_from_jar env.zipfs jar_file with
      | none => none
      | some cs => some (classes ++ cs)

/-- Rules excluded from the class scan (`RULE_SKIP_LIST` in `_scan_classes`). -/
def RULE_SKIP_LIST : List String :=
  ["@debezium_1_7//:compile_time_only_dependencies"]

/-- The inner loop of `_scan_classes`: record the classes of each jar of one
rule in order; a raised exception propagates. -/
def scan_rule_jars (env : Env) (classes : List String) :
    List (Option String) → Option (List String)
  | [] => some classes
  | jar :: rest =>
    match record_classes_from_rule env classes jar with
    | none => none
    | some classes2 => scan_rule_jars env classes2 rest

/-- `_scan_classes()` over the insertion-ordered `jvm_libs` mapping: scan
every non-skiplisted library's jars in order; an exception while scanning
one library aborts the whole scan, since the source has no handler. -/
def scan_classes (env : Env) : List (String × JvmLib) → Option (List (String × JvmLib))
  | [] => some []
  | (k, lib) :: rest =>
    if RULE_SKIP_LIST.contains lib.name then
      (scan_classes env rest).map (fun libs => (k, lib) :: libs)
    else
      match scan_rule_jars env lib.classes lib.jars with
      | none => none
      | some cs =>
        (scan_classes env rest).map (fun libs => (k, { lib with classes := cs }) :: libs)

/-- The concatenation of the per-jar class inventories of a rule, each jar
scanned from an empty class list. -/
def jar_class_lists (env : Env) : List (Option String) → List String
  | [] => []
  | j :: rest => (record_classes_from_rule env [] j).getD [] ++ jar_class_lists env rest

/-- The jar-list computation of `_parse_java_import`: resolve each declared
jar by direct guessing, keeping the successes in order; if any declared jar
fails to resolve, or no jars are declared, the whole list is replaced by
the graph output query for the rule filtered to the `.jar` suffix
(`get_outputs(name, suffix=".jar")`, here `graph_files` already holds the
query's unfiltered file list). -/
def parse_java_import (fs : String → Bool) (info : BazelInfo)
    (jars : List String) (graph_files : List String) : List String :=
  let resolved_jars := jars.filterMap (guess_jar_full_path fs info)
  if resolved_jars.length ≠ jars.length ∨ jars.length = 0 then
    graph_files.filter (fun x => pyEndsWith x ".jar")
  else resolved_jars

/-! ## Rule extraction and graph parsing (indexer.py: `DepsParser`) -/

/-- One entry of a rule's attribute list in the cquery jsonproto output:
a key with an optional scalar value and an optional string-list value. -/
structure AttrItem where
  name : String
  stringValue : Option String
  stringListValue : Option (List String)
  deriving DecidableEq

/-- A rule node of the dependency graph description. -/
structure Rule where
  name : String
  ruleClass : String
  attribute_list : List AttrItem
  ruleOutput : List String
  deriving DecidableEq

/-- A node of the graph description: a rule, or any non-rule target
(`target["type"] != "RULE"`), such as a source-file reference. -/
inductive Target where
  | ruleNode (r : Rule)
  | sourceFile (location : String)
  deriving DecidableEq

def Target.isRule : Target → Bool
  | Target.ruleNode _ => true
  | Target.sourceFile _ => false

/-- The distinguished attributes extracted by `build_attributes_dict`. -/
structure Attrs where
  actual : Option String
  visibility : Option (List String)
  exports : Option (List String)
  src : Option (List String)
  jars : Option (List String)
  emit_ijar : Option Bool
  deriving DecidableEq

/-- `build_attributes_dict(rule)`: walk the attribute list keeping the
distinguished keys, later entries overwriting earlier ones; `none` models
the `KeyError` the source raises when an `actual` item has no
`stringValue`. -/
def build_attributes_dict (rule : Rule) : Option Attrs :=
  rule.attribute_list.foldlM (fun ret item =>
    if item.name = "actual" then
      match item.stringValue with
      | none => none
      | some v => some { ret with actual := some v }
    else if item.name = "visibility" ∧ item.stringListValue.isSome = true then
      some { ret with visibility := item.stringListValue }
    else if item.name = "exports" ∧ item.stringListValue.isSome = true then
      some { ret with exports := item.stringListValue }
    else if item.name = "srcs" ∧ item.stringListValue.isSome = true then
      some { ret with src := item.stringListValue }
    else if item.name = "jars" ∧ item.stringListValue.isSome = true then
      some { ret with jars := item.stringListValue }
    else if item.name = "emit_ijar" ∧ item.stringValue.isSome = true then
      some { ret with emit_ijar := some (item.stringValue.getD "" = "true") }
    else some ret)
    ⟨none, none, none, none, none, none⟩

/-- Python dict assignment `d[k] = v`: overwrite in place, append if new. -/
def dictInsert {α : Type} : List (String × α) → String → α → List (String × α)
  | [], k, v => [(k, v)]
  | (k2, v2) :: rest, k, v =>
    if k2 = k then (k2, v) :: rest else (k2, v2) :: dictInsert rest k v

/-- Python dict lookup of the first (and, for `dictInsert`-built lists,
only) binding of a key. -/
def dictGet? {α : Type} (k : String) : List (String × α) → Option α
  | [] => none
  | (k2, v) :: rest => if k2 = k then some v else dictGet? k rest

/-- Python `set.add`, on a set modelled as a duplicate-free list. -/
def setInsert (s : List String) (x : String) : List String :=
  if x ∈ s then s else s ++ [x]

/-- The mutable state of `DepsParser`: the alias map, the insertion-ordered
`jvm_libs` mapping, and the set of skipped rule kinds. -/
structure IndexState where
  alias_map : List (String × String)
  jvm_libs : List (String × JvmLib)
  skipped_rule_classes : List String
  deriving DecidableEq

/-- The `alias` arm of `DepsParser.parse`: record the alias under the
rule's name; `none` models the `KeyError` on a missing `actual`. -/
def parse_alias (st : IndexState) (rule : Rule) : Option IndexState :=
  match build_attributes_dict rule with
  | none => none
  | some attr =>
    match attr.actual with
    | none => none
    | some a => some { st with alias_map := dictInsert st.alias_map rule.name a }

/-- `_parse_scala_worker(rule)`: the ijar branch is disabled in the source
(`emit_ijar` is forced to `False`), so the first `_deploy.jar` rule output
is guessed; `none` models the exception raised when no output matches
(the guess is then invoked on `None`).  A failed guess is stored as-is. -/
def parse_scala_worker (env : Env) (st : IndexState) (rule : Rule) : Option IndexState :=
  match build_attributes_dict rule with
  | none => none
  | some attr =>
    match rule.ruleOutput.find? (fun i => pyEndsWith i "_deploy.jar") with
    | none => none
    | some jar0 =>
      let lib : JvmLib :=
        ⟨rule.name, [guess_jar_full_path env.fs env.info jar0],
         attr.exports, attr.visibility, []⟩
      some { st with jvm_libs := dictInsert st.jvm_libs rule.name lib }

/-- `_parse_java_library(rule)`: the first `.jar` rule output that is not a
`-src.jar` is guessed; `none` models the exception when no output
matches.  A failed guess is stored as-is. -/
def parse_java_library (env : Env) (st : IndexState) (rule : Rule) : Option IndexState :=
  match build_attributes_dict rule with
  | none => none
  | some attr =>
    match rule.ruleOutput.find? (fun i => pyEndsWith i ".jar" && !pyEndsWith i "-src.jar") with
    | none => none
    | some jar0 =>
      let lib : JvmLib :=
        ⟨rule.name, [guess_jar_full_path env.fs env.info jar0],
         attr.exports, attr.visibility, []⟩
      some { st with jvm_libs := dictInsert st.jvm_libs rule.name lib }

/-- `_parse_jar_generators(rule)`: the jar list comes unconditionally from
the graph output query filtered to `.jar`. -/
def parse_jar_generators (env : Env) (st : IndexState) (rule : Rule) : Option IndexState :=
  match build_attributes_dict rule with
  | none => none
  | some attr =>
    let lib : JvmLib :=
      ⟨rule.name, ((env.outputs rule.name).filter (fun x => pyEndsWith x ".jar")).map some,
       attr.exports, attr.visibility, []⟩
    some { st with jvm_libs := dictInsert st.jvm_libs rule.name lib }

/-- `_parse_java_import(rule)`: see `parse_java_import` for the jar list. -/
def parse_java_import_node (env : Env) (st : IndexState) (rule : Rule) : Option IndexState :=
  match build_attributes_dict rule with
  | none => none
  | some attr =>
    let lib : JvmLib :=
      ⟨rule.name,
       (parse_java_import env.fs env.info (attr.jars.getD []) (env.outputs rule.name)).map some,
       attr.exports, attr.visibility, []⟩
    some { st with jvm_libs := dictInsert st.jvm_libs rule.name lib }

/-- The rule kinds handled by the dispatch in `DepsParser.parse`. -/
def recognized_rule_classes : List String :=
  ["alias", "generic_scala_worker", "java_library", "java_import",
   "scala_proto_library", "jarjar_links"]

/-- One iteration of the node loop of `DepsParser.parse`: non-rule targets
are skipped outright, rules are dispatched on their kind, and a rule of any
other kind only adds its kind to the skip-report set. -/
def parse_node (env : Env) (st : IndexState) : Target → Option IndexState
  | Target.sourceFile _ => some st
  | Target.ruleNode rule =>
    if rule.ruleClass = "alias" then parse_alias st rule
    else if rule.ruleClass = "generic_scala_worker" then parse_scala_worker env st rule
    else if rule.ruleClass = "java_library" then parse_java_library env st rule
    else if rule.ruleClass = "java_import" then parse_java_import_node env st rule
    else if rule.ruleClass = "scala_proto_library" ∨ rule.ruleClass = "jarjar_links" then
      parse_jar_generators env st rule
    else
      some { st with skipped_rule_classes := setInsert st.skipped_rule_classes rule.ruleClass }

/-- The node loop of `DepsParser.parse`; an exception in any iteration
propagates. -/
def parse_nodes (env : Env) : IndexState → List Target → Option IndexState
  | st, [] => some st
  | st, t :: ts =>
    match parse_node env st t with
    | none => none
    | some st2 => parse_nodes env st2 ts

/-- `DepsParser.parse(deps_json)`: dispatch every node starting from the
empty state, then run the class scan over the accumulated libraries. -/
def parse (env : Env) (targets : List Target) : Option IndexState :=
  match parse_nodes env ⟨[], [], []⟩ targets with
  | none => none
  | some st =>
    match scan_classes env st.jvm_libs with
    | none => none
    | some libs2 => some { st with jvm_libs := libs2 }

/-! ## The resolver (autodeps.py: `AutoDeps`) -/

/-- The `if d in deps: deps[d].append(c) else: deps[d] = [c]` pattern of
the source, on an insertion-ordered mapping to lists (used both for
`class_to_rule` in `AutoDeps.__init__` and for `deps` in
`AutoDeps.resolve`). -/
def assocAppend (k v : String) : List (String × List String) → List (String × List String)
  | [] => [(k, [v])]
  | (k2, vs) :: rest =>
    if k2 = k then (k2, vs ++ [v]) :: rest else (k2, vs) :: assocAppend k v rest

/-- The value list stored under a key (`[]` when the key is absent). -/
def bucketOf (k : String) (m : List (String × List String)) : List String :=
  (dictGet? k m).getD []

/-- The `class_to_rule` index built by `AutoDeps.__init__`: for every
library in insertion order, append its name to the bucket of each of its
classes. -/
def build_class_to_rule (libs : List JvmLib) : List (String × List String) :=
  libs.foldl (fun m lib => lib.classes.foldl (fun m2 c => assocAppend c lib.name m2) m) []

/-- The `rule_to_alias` reverse mapping of `AutoDeps.__init__` (when two
aliases point at the same real target the later one wins). -/
def build_rule_to_alias (al : List (String × String)) : List (String × String) :=
  al.foldl (fun m p => dictInsert m p.2 p.1) []

/-- `_find_bazel_rule_for_class(c)`: the providers of a class, `[]` when
the class is not in the index. -/
def find_bazel_rule_for_class (m : List (String × List String)) (c : String) : List String :=
  bucketOf c m

/-- The `deps` accumulation of `AutoDeps.resolve`: for every class to
satisfy, append it to the justification list of each of its providers. -/
def build_deps (m : List (String × List String)) (all_classes : List String) :
    List (String × List String) :=
  all_classes.foldl (fun deps c =>
    (find_bazel_rule_for_class m c).foldl (fun dp d => assocAppend d c dp) deps) []

/-- Python string comparison `<=`: lexicographic on code points. -/
def listLe : List Char → List Char → Bool
  | [], _ => true
  | _ :: _, [] => false
  | a :: as, b :: bs =>
    if a.toNat < b.toNat then true
    else if b.toNat < a.toNat then false
    else listLe as bs

def strLe (a b : String) : Bool := listLe a.data b.data

/-- Stable insertion into a key-sorted list; `sortByKey` below implements
the effect of Python `sorted` on `deps.items()` (the keys are dict keys,
hence distinct, so the tuple comparison is a key comparison). -/
def insertByKey (x : String × List String) :
    List (String × List String) → List (String × List String)
  | [] => [x]
  | y :: ys => if strLe x.1 y.1 then x :: y :: ys else y :: insertByKey x ys

def sortByKey (l : List (String × List String)) : List (String × List String) :=
  l.foldr insertByKey []

/-- The alias substitution applied to each provider before printing. -/
def substitute_alias (rule_to_alias : List (String × String)) (d : String) : String :=
  (dictGet? d rule_to_alias).getD d

/-- `AutoDeps.resolve`, as the ordered list of emitted (dependency line,
justifying class list) pairs: accumulate `deps`, sort by the provider name
as stored in the index, then substitute aliases for display. -/
def resolve (class_to_rule : List (String × List String))
    (rule_to_alias : List (String × String)) (all_classes : List String) :
    List (String × List String) :=
  (sortByKey (build_deps class_to_rule all_classes)).map
    (fun p => (substitute_alias rule_to_alias p.1, p.2))

/-- The provider multiset of one class, library by library: each library
contributes one occurrence of its name per occurrence of the class in its
class list. -/
def flatRep (c : String) : List JvmLib → List String
  | [] => []
  | l :: ls => List.replicate (l.classes.count c) l.name ++ flatRep c ls

/-! ## The import scanner (autodeps.py: `_get_imports_from_file`) -/

/-- Python `str.strip()` on a character list. -/
def stripL (l : List Char) : List Char :=
  ((l.dropWhile pyIsSpace).reverse.dropWhile pyIsSpace).reverse

/-- Python `str.split(maxsplit=1)` with the default whitespace separator:
leading whitespace is skipped, the first token is cut at the next
whitespace run, and the remainder — minus its leading whitespace — is
returned whole as the second element when nonempty. -/
def splitWs1L (l : List Char) : List (List Char) :=
  let d := l.dropWhile pyIsSpace
  let t0 := d.takeWhile (fun c => !pyIsSpace c)
  let r := (d.dropWhile (fun c => !pyIsSpace c)).dropWhile pyIsSpace
  if t0.isEmpty then [] else if r.isEmpty then [t0] else [t0, r]

/-- Python `str.split(sep)` for a one-character separator. -/
def splitCharL (sep : Char) : List Char → List (List Char)
  | [] => [[]]
  | c :: cs =>
    if c == sep then [] :: splitCharL sep cs
    else
      match splitCharL sep cs with
      | [] => [[c]]
      | h :: t => (c :: h) :: t

/-- Python `str.rstrip(ch)` for a one-character strip set. -/
def rstripCharL (ch : Char) (l : List Char) : List Char :=
  (l.reverse.dropWhile (fun c => c == ch)).reverse

/-- The per-line logic of `_get_imports_from_file`: a line not starting
with `import ` yields nothing; otherwise the second whitespace token of the
stripped line is the class name, and a left brace in it triggers the
multi-import expansion — `parts[0] + i.strip()` for every comma-separated
`i` in `parts[1].rstrip` of right braces.  `none` models the `IndexError`
raised on a lone `import` (and the unreachable missing-`parts[1]` case). -/
def imports_from_line (line : String) : Option (List String) :=
  if pyStartsWith line "import " then
    match splitWs1L (stripL line.data) with
    | _ :: class_name :: _ =>
      if class_name.contains '\x7b' then
        match splitCharL '\x7b' class_name with
        | p0 :: p1 :: _ =>
          some ((splitCharL ',' (rstripCharL '\x7d' p1)).map
            (fun i => (⟨p0 ++ stripL i⟩ : String)))
        | _ => none
      else some [(⟨class_name⟩ : String)]
    | _ => none
  else some []

/-! ## Theorems for claims C1 and C2 -/

theorem head?_of_isPrefixOf {p l : List Char} {c : Char} (hp : p.head? = some c)
    (h : p.isPrefixOf l = true) : l.head? = some c := by
  cases p with
  | nil => simp at hp
  | cons a as =>
    cases l with
    | nil => simp [List.isPrefixOf] at h
    | cons b bs =>
      simp only [List.isPrefixOf, Bool.and_eq_true, beq_iff_eq] at h
      simp only [List.head?, Option.some.injEq] at hp ⊢
      rw [← h.1, hp]

theorem isPrefixOf_false_of_head_ne {p l : List Char} {c₁ c₂ : Char}
    (hp : p.head? = some c₁) (hl : l.head? = some c₂) (hne : c₁ ≠ c₂) :
    p.isPrefixOf l = false := by
  cases p with
  | nil => simp at hp
  | cons a as =>
    cases l with
    | nil => simp at hl
    | cons b bs =>
      simp only [List.head?, Option.some.injEq] at hp hl
      have : (a == b) = false := by
        rw [hp, hl]
        exact beq_eq_false_iff_ne.mpr hne
      simp [List.isPrefixOf, this]

theorem startsWith_slash_not_at (jar : String) (h : pyStartsWith jar "//" = true) :
    pyStartsWith jar "@" = false := by
  unfold pyStartsWith at *
  have h1 : jar.data.head? = some '/' := head?_of_isPrefixOf (p := "//".data) rfl h
  exact isPrefixOf_false_of_head_ne (p := "@".data) rfl h1 (by decide)

theorem startsWith_slash_not_bazel (jar : String) (h : pyStartsWith jar "//" = true) :
    pyStartsWith jar "bazel-out" = false := by
  unfold pyStartsWith at *
  have h1 : jar.data.head? = some '/' := head?_of_isPrefixOf (p := "//".data) rfl h
  exact isPrefixOf_false_of_head_ne (p := "bazel-out".data) rfl h1 (by decide)

theorem startsWith_at_not_bazel (jar : String) (h : pyStartsWith jar "@" = true) :
    pyStartsWith jar "bazel-out" = false := by
  unfold pyStartsWith at *
  have h1 : jar.data.head? = some '@' := head?_of_isPrefixOf (p := "@".data) rfl h
  exact isPrefixOf_false_of_head_ne (p := "bazel-out".data) rfl h1 (by decide)

/-- C1 (amended): `_guess_jar_full_path` implements exactly the spec's
strategies 1-3 (prefix-dispatched workspace-local, external-repository and
generated-output guesses, first success winning), and nothing more: when the
applicable guess fails it returns `None`; there is no force-build fallback,
no retry, no graph output-location query and no `UnresolvableArchive`
failure in the code. -/
theorem C1_amended (fs : String → Bool) (info : BazelInfo) (jar : String) :
    guess_jar_full_path fs info jar = spec_guesses fs info jar := by
  unfold guess_jar_full_path spec_guesses spec_workspace_guess spec_external_guess
    spec_generated_guess
  cases h1 : pyStartsWith jar "//" with
  | true =>
    simp only [h1, startsWith_slash_not_at jar h1, startsWith_slash_not_bazel jar h1]
    cases option_truthy (get_full_path_under_output fs info
      (pyReplace (pyDrop jar 2) ":" "/")) <;> simp
  | false =>
    cases h2 : pyStartsWith jar "@" with
    | true =>
      simp only [h1, h2, startsWith_at_not_bazel jar h2]
      cases option_truthy (get_full_path_under_output fs info
        (osPathJoin "external"
          (pyReplace (pyReplace (pyReplace (pyDrop jar 1) "//:" "/") "//" "/") ":" "/"))) <;>
        simp
    | false =>
      cases h3 : pyStartsWith jar "bazel-out" <;> simp [h1, h2, h3]

/-- C1 (counterexample): with an empty filesystem in which building
`//a:b` would materialise `/ws/a/b.jar`, the spec's four-strategy
resolver finds the jar through the force-build fallback, while
`_guess_jar_full_path` — which never builds, never retries and never
queries the graph — returns `None` (and raises nothing). -/
theorem C1_counterexample :
    guess_jar_full_path (fun _ => false) ⟨"/ws", "/ob", "/bb"⟩ "//a:b.jar" = none ∧
    resolveSpec
      ⟨fun _ => false, fun _ => (fun p => p == "/ws/a/b.jar"), fun _ => []⟩
      ⟨"/ws", "/ob", "/bb"⟩ "//a:b.jar" "//a:b" = some "/ws/a/b.jar" := by
  constructor <;> rfl

/-- C2: whenever the transformed relative path exists under at least one of
the three candidate roots, `_get_full_path_under_output` returns an existing
path, and that path is the join with the first root — in the fixed priority
order workspace, output base, bazel-bin — under which the joined path
exists. -/
theorem C2_theorem (fs : String → Bool) (info : BazelInfo) (rel : String)
    (h : fs (osPathJoin info.workspace rel) = true ∨
         fs (osPathJoin info.output_base rel) = true ∨
         fs (osPathJoin info.bazel_bin rel) = true) :
    get_full_path_under_output fs info rel =
      some (if fs (osPathJoin info.workspace rel) then osPathJoin info.workspace rel
            else if fs (osPathJoin info.output_base rel) then osPathJoin info.output_base rel
            else osPathJoin info.bazel_bin rel) ∧
    ∃ p, get_full_path_under_output fs info rel = some p ∧ fs p = true := by
  cases h1 : fs (osPathJoin info.workspace rel) with
  | true =>
    refine ⟨by simp [get_full_path_under_output, probe_roots, h1],
      osPathJoin info.workspace rel, by simp [get_full_path_under_output, probe_roots, h1], h1⟩
  | false =>
    cases h2 : fs (osPathJoin info.output_base rel) with
    | true =>
      refine ⟨by simp [get_full_path_under_output, probe_roots, h1, h2],
        osPathJoin info.output_base rel,
        by simp [get_full_path_under_output, probe_roots, h1, h2], h2⟩
    | false =>
      have h3 : fs (osPathJoin info.bazel_bin rel) = true := by
        rcases h with h | h | h
        · rw [h1] at h; cases h
        · rw [h2] at h; cases h
        · exact h
      refine ⟨by simp [get_full_path_under_output, probe_roots, h1, h2, h3],
        osPathJoin info.bazel_bin rel,
        by simp [get_full_path_under_output, probe_roots, h1, h2, h3], h3⟩

/-- C2 witness: a path reachable only under the output base resolves there. -/
theorem C2_witness :
    get_full_path_under_output (fun p => p == "/ob/x/y.jar") ⟨"/ws", "/ob", "/bb"⟩ "x/y.jar" =
      some (if (fun p => p == "/ob/x/y.jar") (osPathJoin "/ws" "x/y.jar") then
              osPathJoin "/ws" "x/y.jar"
            else if (fun p => p == "/ob/x/y.jar") (osPathJoin "/ob" "x/y.jar") then
              osPathJoin "/ob" "x/y.jar"
            else osPathJoin "/bb" "x/y.jar") ∧
    ∃ p, get_full_path_under_output (fun p => p == "/ob/x/y.jar") ⟨"/ws", "/ob", "/bb"⟩
          "x/y.jar" = some p ∧ (fun p => p == "/ob/x/y.jar") p = true :=
  C2_theorem (fun p => p == "/ob/x/y.jar") ⟨"/ws", "/ob", "/bb"⟩ "x/y.jar"
    (Or.inr (Or.inl (by decide)))

/-! ## Theorems for claims C3 and C8 -/

theorem record_classes_from_rule_eq (env : Env) (init : List String) (j : Option String) :
    record_classes_from_rule env init j =
      (record_classes_from_rule env [] j).map (fun cs => init ++ cs) := by
  cases j with
  | none => rfl
  | some s =>
    simp only [record_classes_from_rule]
    cases hloc : (if pyStartsWith s "/" then some s
                  else get_full_path_under_output env.fs env.info s) with
    | none => rfl
    | some jf =>
      cases hz : get_class_names_from_jar env.zipfs jf with
      | none => simp [hz]
      | some cs => simp [hz]

/-- C3 (amended): there is no per-library error handling in the class scan
of the index builder — if any non-skiplisted library's jars fail to resolve
or to read, the exception propagates out of `_scan_classes` and the whole
scan (and with it the whole index build) aborts; the remaining libraries
are not scanned. -/
theorem C3_amended (env : Env) (libs : List (String × JvmLib)) (k : String) (lib : JvmLib)
    (hmem : (k, lib) ∈ libs)
    (hskip : RULE_SKIP_LIST.contains lib.name = false)
    (hfail : scan_rule_jars env lib.classes lib.jars = none) :
    scan_classes env libs = none := by
  induction libs with
  | nil => simp at hmem
  | cons hd rest ih =>
    obtain ⟨k2, l2⟩ := hd
    rcases List.mem_cons.mp hmem with heq | hmem2
    · injection heq with h1 h2
      subst h1; subst h2
      unfold scan_classes
      rw [hskip, hfail]
      simp
    · unfold scan_classes
      cases hsl : RULE_SKIP_LIST.contains l2.name with
      | true => simp [ih hmem2]
      | false =>
        simp only [Bool.false_eq_true, if_false]
        cases hscan : scan_rule_jars env l2.classes l2.jars with
        | none => rfl
        | some cs => simp [ih hmem2]

/-- C3 witness: one library whose stored jar is `None` (a failed guess)
makes the whole scan abort. -/
theorem C3_witness :
    scan_classes
      ⟨fun _ => false, ⟨"/ws", "/ob", "/bb"⟩, fun _ => none, fun _ => []⟩
      [("//bad:bad", ⟨"//bad:bad", [none], none, none, []⟩)] = none :=
  C3_amended _ _ "//bad:bad" ⟨"//bad:bad", [none], none, none, []⟩
    (by decide) (by decide) (by decide)

/-- C3 (counterexample): with a first library whose jar cannot be resolved
and a second library whose jar is readable and contains `com/x/A.class`,
the scan of the whole list aborts (`none`) — the second library is never
scanned — even though scanning the second library alone succeeds.  The
claimed catch-and-continue behaviour does not exist in the code. -/
theorem C3_counterexample :
    scan_classes
      ⟨fun _ => false, ⟨"/ws", "/ob", "/bb"⟩,
        (fun p => if p == "/good.jar" then some ["com/x/A.class"] else none), fun _ => []⟩
      [("//bad:bad", ⟨"//bad:bad", [none], none, none, []⟩),
       ("//good:good", ⟨"//good:good", [some "/good.jar"], none, none, []⟩)] = none ∧
    scan_classes
      ⟨fun _ => false, ⟨"/ws", "/ob", "/bb"⟩,
        (fun p => if p == "/good.jar" then some ["com/x/A.class"] else none), fun _ => []⟩
      [("//good:good", ⟨"//good:good", [some "/good.jar"], none, none, []⟩)] =
      some [("//good:good", ⟨"//good:good", [some "/good.jar"], none, none, ["com.x.A"]⟩)] := by
  constructor <;> rfl

/-- C8 (amended): the scan appends, with no deduplication, the class
inventories of a rule's jars one after another: the final class list is the
initial list followed by the concatenation of the per-jar inventories in
order.  Per-descriptor uniqueness therefore holds only when those
inventories are pairwise disjoint; a class contained in two jars of the
same rule appears twice. -/
theorem C8_amended (env : Env) (jars : List (Option String)) (init : List String)
    (hs : ∀ j ∈ jars, (record_classes_from_rule env [] j).isSome = true) :
    scan_rule_jars env init jars = some (init ++ jar_class_lists env jars) := by
  induction jars generalizing init with
  | nil => simp [scan_rule_jars, jar_class_lists]
  | cons j rest ih =>
    have hj : (record_classes_from_rule env [] j).isSome = true :=
      hs j (List.mem_cons_self j rest)
    obtain ⟨cs, hcs⟩ := Option.isSome_iff_exists.mp hj
    unfold scan_rule_jars
    rw [record_classes_from_rule_eq env init j, hcs]
    simp only [Option.map_some']
    rw [ih (init ++ cs) (fun x hx => hs x (List.mem_cons_of_mem j hx))]
    simp [jar_class_lists, hcs, List.append_assoc]

/-- C8 witness: a rule with two distinct readable jars gets the
concatenation of their inventories. -/
theorem C8_witness :
    scan_rule_jars
      ⟨fun _ => false, ⟨"/ws", "/ob", "/bb"⟩,
        (fun p => if p == "/j1.jar" then some ["com/x/A.class"]
                  else if p == "/j2.jar" then some ["com/x/B.class"] else none),
        fun _ => []⟩
      [] [some "/j1.jar", some "/j2.jar"] =
      some ([] ++ jar_class_lists
        ⟨fun _ => false, ⟨"/ws", "/ob", "/bb"⟩,
          (fun p => if p == "/j1.jar" then some ["com/x/A.class"]
                    else if p == "/j2.jar" then some ["com/x/B.class"] else none),
          fun _ => []⟩
        [some "/j1.jar", some "/j2.jar"]) :=
  C8_amended _ [some "/j1.jar", some "/j2.jar"] [] (by decide)

/-- C8 (counterexample): a rule with two jars that both contain
`com/x/A.class` ends up with the duplicate class list
`["com.x.A", "com.x.A"]` — the per-descriptor no-duplicates invariant is
violated by the code. -/
theorem C8_counterexample :
    scan_rule_jars
      ⟨fun _ => false, ⟨"/ws", "/ob", "/bb"⟩,
        (fun p => if p == "/j1.jar" then some ["com/x/A.class"]
                  else if p == "/j2.jar" then some ["com/x/A.class"] else none),
        fun _ => []⟩
      [] [some "/j1.jar", some "/j2.jar"] = some ["com.x.A", "com.x.A"] ∧
    ¬ (["com.x.A", "com.x.A"] : List String).Nodup := by
  constructor
  · rfl
  · decide

/-! ## Theorems for claim C7 -/

theorem filterMap_length_le {α β : Type} (f : α → Option β) :
    ∀ l : List α, (l.filterMap f).length ≤ l.length := by
  intro l
  induction l with
  | nil => simp
  | cons a l ih =>
    rw [List.filterMap_cons]
    cases f a with
    | none => exact Nat.le_succ_of_le ih
    | some b => simpa using ih

theorem filterMap_length_of_all_some {α β : Type} (f : α → Option β) :
    ∀ l : List α, (∀ a ∈ l, (f a).isSome = true) → (l.filterMap f).length = l.length := by
  intro l
  induction l with
  | nil => simp
  | cons a l ih =>
    intro h
    obtain ⟨b, hb⟩ := Option.isSome_iff_exists.mp (h a (List.mem_cons_self a l))
    rw [List.filterMap_cons, hb]
    simp [ih (fun x hx => h x (List.mem_cons_of_mem a hx))]

theorem filterMap_length_lt {α β : Type} (f : α → Option β) {a : α} :
    ∀ {l : List α}, a ∈ l → f a = none → (l.filterMap f).length < l.length := by
  intro l
  induction l with
  | nil => intro h; simp at h
  | cons x xs ih =>
    intro hmem hnone
    rcases List.mem_cons.mp hmem with rfl | hmem2
    · rw [List.filterMap_cons, hnone]
      exact Nat.lt_succ_of_le (filterMap_length_le f xs)
    · rw [List.filterMap_cons]
      cases f x with
      | none => exact Nat.lt_succ_of_lt (ih hmem2 hnone)
      | some b => simpa using Nat.succ_lt_succ (ih hmem2 hnone)

/-- C7: for a `java_import` rule, the archive list is the declared jars
resolved by direct guessing when every declared jar resolves and at least
one is declared; if some declared jar fails to resolve directly, or the
declared list is empty, the whole list is instead the graph output query
filtered to the `.jar` suffix. -/
theorem C7_theorem (fs : String → Bool) (info : BazelInfo) (jars graph_files : List String) :
    ((∀ j ∈ jars, (guess_jar_full_path fs info j).isSome = true) → jars ≠ [] →
      parse_java_import fs info jars graph_files =
        jars.filterMap (guess_jar_full_path fs info)) ∧
    (((∃ j ∈ jars, guess_jar_full_path fs info j = none) ∨ jars = []) →
      parse_java_import fs info jars graph_files =
        graph_files.filter (fun x => pyEndsWith x ".jar")) := by
  constructor
  · intro hall hne
    have hlen := filterMap_length_of_all_some (guess_jar_full_path fs info) jars hall
    unfold parse_java_import
    rw [if_neg]
    push_neg
    exact ⟨hlen, fun h0 => absurd (List.length_eq_zero.mp h0) hne⟩
  · intro h
    unfold parse_java_import
    rw [if_pos]
    rcases h with ⟨j, hj, hnone⟩ | rfl
    · exact Or.inl (Nat.ne_of_lt (filterMap_length_lt _ hj hnone))
    · exact Or.inr rfl

/-- C7 witness: a single declared jar that resolves under the workspace
root is used as the archive list, bypassing the graph query. -/
theorem C7_witness :
    parse_java_import (fun p => p == "/ws/a/x.jar") ⟨"/ws", "/ob", "/bb"⟩
      ["//a:x.jar"] ["g.jar"] = ["/ws/a/x.jar"] :=
  ((C7_theorem (fun p => p == "/ws/a/x.jar") ⟨"/ws", "/ob", "/bb"⟩
      ["//a:x.jar"] ["g.jar"]).1 (by decide) (by decide)).trans (by decide)

/-! ## Theorems for claims C9 and C10 -/

theorem setInsert_self_mem (s : List String) (x : String) : x ∈ setInsert s x := by
  unfold setInsert
  split
  · assumption
  · simp

theorem setInsert_idem (s : List String) (x : String) :
    setInsert (setInsert s x) x = setInsert s x := by
  unfold setInsert
  by_cases hx : x ∈ s <;> simp [hx]

theorem parse_node_unrecognized (env : Env) (st : IndexState) (r : Rule)
    (hk : r.ruleClass ∉ recognized_rule_classes) :
    parse_node env st (Target.ruleNode r) =
      some { st with skipped_rule_classes := setInsert st.skipped_rule_classes r.ruleClass } := by
  simp only [recognized_rule_classes, List.mem_cons, List.not_mem_nil, or_false] at hk
  push_neg at hk
  obtain ⟨h1, h2, h3, h4, h5, h6⟩ := hk
  simp [parse_node, h1, h2, h3, h4, h5, h6]

theorem parse_nodes_all_unrecognized (env : Env) (k : String)
    (hk : k ∉ recognized_rule_classes) :
    ∀ (nodes : List Target) (st : IndexState),
      (∀ t ∈ nodes, ∃ r, t = Target.ruleNode r ∧ r.ruleClass = k) →
      parse_nodes env st nodes =
        some (if nodes.isEmpty then st
              else { st with skipped_rule_classes := setInsert st.skipped_rule_classes k }) := by
  intro nodes
  induction nodes with
  | nil => intro st _; simp [parse_nodes]
  | cons t ts ih =>
    intro st h
    obtain ⟨r, rfl, hr⟩ := h t (List.mem_cons_self t ts)
    have hk' : r.ruleClass ∉ recognized_rule_classes := by rw [hr]; exact hk
    have hstep := parse_node_unrecognized env st r hk'
    rw [hr] at hstep
    simp only [parse_nodes, hstep]
    rw [ih _ (fun x hx => h x (List.mem_cons_of_mem _ hx))]
    cases ts with
    | nil => simp
    | cons t2 ts2 => simp [setInsert_idem]

/-- C9: in a graph snapshot consisting of `n ≥ 1` rules that all have the
same unrecognized kind `k`, index building produces no alias entry, no
library descriptor and no classes — the final state is empty except for the
skip-report set, which contains `k` exactly once; moreover a single rule of
kind `k` never changes anything in the state except inserting `k` into the
skip-report set. -/
theorem C9_theorem (env : Env) (k : String) (nodes : List Target)
    (hk : k ∉ recognized_rule_classes) (hne : nodes ≠ [])
    (hall : ∀ t ∈ nodes, ∃ r, t = Target.ruleNode r ∧ r.ruleClass = k) :
    parse env nodes = some ⟨[], [], [k]⟩ ∧
    (⟨[], [], [k]⟩ : IndexState).skipped_rule_classes.count k = 1 ∧
    (∀ (st : IndexState) (r : Rule), r.ruleClass = k →
      parse_node env st (Target.ruleNode r) =
        some { st with skipped_rule_classes := setInsert st.skipped_rule_classes k }) := by
  refine ⟨?_, by simp, ?_⟩
  · unfold parse
    rw [parse_nodes_all_unrecognized env k hk nodes ⟨[], [], []⟩ hall]
    cases nodes with
    | nil => exact absurd rfl hne
    | cons t ts =>
      have hins : setInsert [] k = [k] := by simp [setInsert]
      simp [hins, scan_classes]
  · intro st r hr
    have hstep := parse_node_unrecognized env st r (by rw [hr]; exact hk)
    rw [hr] at hstep
    exact hstep

/-- C9 witness: two distinct `cc_binary` rules produce an empty index whose
skip-report set is exactly `["cc_binary"]`. -/
theorem C9_witness :
    parse ⟨fun _ => false, ⟨"/ws", "/ob", "/bb"⟩, fun _ => none, fun _ => []⟩
      [Target.ruleNode ⟨"//a:a", "cc_binary", [], []⟩,
       Target.ruleNode ⟨"//b:b", "cc_binary", [], []⟩] = some ⟨[], [], ["cc_binary"]⟩ ∧
    (⟨[], [], ["cc_binary"]⟩ : IndexState).skipped_rule_classes.count "cc_binary" = 1 ∧
    (∀ (st : IndexState) (r : Rule), r.ruleClass = "cc_binary" →
      parse_node ⟨fun _ => false, ⟨"/ws", "/ob", "/bb"⟩, fun _ => none, fun _ => []⟩ st
          (Target.ruleNode r) =
        some { st with
          skipped_rule_classes := setInsert st.skipped_rule_classes "cc_binary" }) :=
  C9_theorem _ "cc_binary" _ (by decide) (by decide)
    (by
      intro t ht
      rcases List.mem_cons.mp ht with rfl | ht2
      · exact ⟨_, rfl, rfl⟩
      · rcases List.mem_cons.mp ht2 with rfl | h3
        · exact ⟨_, rfl, rfl⟩
        · simp at h3)

/-- C10: a non-rule node of the graph description is ignored entirely — it
changes nothing in the parse state (no alias entry, no descriptor, no
skip-report entry), and the node loop behaves exactly as if all non-rule
nodes had been filtered out. -/
theorem C10_theorem (env : Env) :
    (∀ (st : IndexState) (loc : String),
      parse_node env st (Target.sourceFile loc) = some st) ∧
    (∀ (st : IndexState) (nodes : List Target),
      parse_nodes env st nodes = parse_nodes env st (nodes.filter Target.isRule)) := by
  constructor
  · intro st loc; rfl
  · intro st nodes
    induction nodes generalizing st with
    | nil => rfl
    | cons t ts ih =>
      cases t with
      | sourceFile loc =>
        calc parse_nodes env st (Target.sourceFile loc :: ts)
            = parse_nodes env st ts := rfl
          _ = parse_nodes env st (ts.filter Target.isRule) := ih st
          _ = parse_nodes env st ((Target.sourceFile loc :: ts).filter Target.isRule) := by
              simp [List.filter_cons, Target.isRule]
      | ruleNode r =>
        have hfil : (Target.ruleNode r :: ts).filter Target.isRule =
            Target.ruleNode r :: ts.filter Target.isRule := by
          simp [List.filter_cons, Target.isRule]
        rw [hfil]
        cases h : parse_node env st (Target.ruleNode r) with
        | none => simp [parse_nodes, h]
        | some st2 => simp [parse_nodes, h, ih st2]

/-! ## Theorems for claim C4 -/

theorem listLe_total : ∀ (a b : List Char), listLe a b = true ∨ listLe b a = true := by
  intro a
  induction a with
  | nil => intro b; left; rfl
  | cons x xs ih =>
    intro b
    cases b with
    | nil => right; rfl
    | cons y ys =>
      rcases Nat.lt_trichotomy x.toNat y.toNat with h | h | h
      · left; simp [listLe, h]
      · have h1 : ¬ x.toNat < y.toNat := by omega
        have h2 : ¬ y.toNat < x.toNat := by omega
        rcases ih ys with hy | hy
        · left; simp [listLe, h1, h2, hy]
        · right; simp [listLe, h1, h2, hy]
      · right; simp [listLe, h]

theorem listLe_trans :
    ∀ (a b c : List Char), listLe a b = true → listLe b c = true → listLe a c = true := by
  intro a
  induction a with
  | nil => intro b c _ _; rfl
  | cons x xs ih =>
    intro b c hab hbc
    cases b with
    | nil => simp [listLe] at hab
    | cons y ys =>
      cases c with
      | nil => simp [listLe] at hbc
      | cons z zs =>
        simp only [listLe] at hab hbc ⊢
        split at hab
        · split at hbc
          · have : x.toNat < z.toNat := by omega
            simp [this]
          · split at hbc
            · simp at hbc
            · have : x.toNat < z.toNat := by omega
              simp [this]
        · split at hab
          · simp at hab
          · split at hbc
            · have : x.toNat < z.toNat := by omega
              simp [this]
            · split at hbc
              · simp at hbc
              · have h3 : ¬ x.toNat < z.toNat := by omega
                have h4 : ¬ z.toNat < x.toNat := by omega
                simp only [h3, h4, if_false]
                exact ih ys zs hab hbc

theorem strLe_total (a b : String) : strLe a b = true ∨ strLe b a = true :=
  listLe_total a.data b.data

theorem strLe_trans (a b c : String) (h1 : strLe a b = true) (h2 : strLe b c = true) :
    strLe a c = true :=
  listLe_trans a.data b.data c.data h1 h2

theorem mem_insertByKey_iff (x z : String × List String) :
    ∀ (l : List (String × List String)), z ∈ insertByKey x l ↔ z = x ∨ z ∈ l := by
  intro l
  induction l with
  | nil => simp [insertByKey]
  | cons y ys ih =>
    simp only [insertByKey]
    split
    · simp [List.mem_cons]
    · simp only [List.mem_cons, ih]
      tauto

theorem mem_sortByKey_iff (z : String × List String) :
    ∀ (l : List (String × List String)), z ∈ sortByKey l ↔ z ∈ l := by
  intro l
  induction l with
  | nil => simp [sortByKey]
  | cons x xs ih =>
    have hstep : sortByKey (x :: xs) = insertByKey x (sortByKey xs) := rfl
    rw [hstep, mem_insertByKey_iff, ih]
    simp [List.mem_cons]

theorem pairwise_insertByKey (x : String × List String) :
    ∀ (l : List (String × List String)),
      List.Pairwise (fun a b => strLe a.1 b.1 = true) l →
      List.Pairwise (fun a b => strLe a.1 b.1 = true) (insertByKey x l) := by
  intro l
  induction l with
  | nil => intro _; simp [insertByKey]
  | cons y ys ih =>
    intro hp
    rw [List.pairwise_cons] at hp
    obtain ⟨hy, hys⟩ := hp
    simp only [insertByKey]
    split
    · rename_i hxy
      rw [List.pairwise_cons]
      refine ⟨?_, List.Pairwise.cons hy hys⟩
      intro z hz
      rcases List.mem_cons.mp hz with rfl | hz2
      · exact hxy
      · exact strLe_trans _ _ _ hxy (hy z hz2)
    · rename_i hxy
      have hyx : strLe y.1 x.1 = true := by
        rcases strLe_total x.1 y.1 with h | h
        · exact absurd h hxy
        · exact h
      rw [List.pairwise_cons]
      refine ⟨?_, ih hys⟩
      intro z hz
      rcases (mem_insertByKey_iff x z ys).mp hz with rfl | hz2
      · exact hyx
      · exact hy z hz2

theorem sortByKey_pairwise (l : List (String × List String)) :
    List.Pairwise (fun a b => strLe a.1 b.1 = true) (sortByKey l) := by
  induction l with
  | nil => simp [sortByKey]
  | cons x xs ih => exact pairwise_insertByKey x (sortByKey xs) ih

/-- C4 (amended): the resolver emits one (provider, justifying classes)
pair per provider, in ascending order of the provider identifier as stored
in the index — i.e. the pre-alias-substitution name; the alias substitution
is applied after sorting, so the displayed identifiers need not be sorted
when an alias renames a provider. -/
theorem C4_amended (class_to_rule : List (String × List String))
    (rule_to_alias : List (String × String)) (classes : List String) :
    List.Pairwise (fun a b => strLe a.1 b.1 = true)
      (sortByKey (build_deps class_to_rule classes)) ∧
    resolve class_to_rule rule_to_alias classes =
      (sortByKey (build_deps class_to_rule classes)).map
        (fun p => (substitute_alias rule_to_alias p.1, p.2)) :=
  ⟨sortByKey_pairwise _, rfl⟩

/-- C4 (counterexample): with providers `//b:b` and `//z:z` for class
`com.x.A`, where `//z:z` is displayed as its alias `//a:alias`, the output
order is `//b:b` before `//a:alias` — sorted by the pre-substitution names,
not by the displayed (post-alias-substitution) identifiers, which here are
out of order. -/
theorem C4_counterexample :
    resolve [("com.x.A", ["//z:z", "//b:b"])] [("//z:z", "//a:alias")] ["com.x.A"] =
      [("//b:b", ["com.x.A"]), ("//a:alias", ["com.x.A"])] ∧
    ¬ List.Pairwise (fun a b => strLe a b = true)
        ((resolve [("com.x.A", ["//z:z", "//b:b"])] [("//z:z", "//a:alias")]
            ["com.x.A"]).map Prod.fst) := by
  constructor
  · rfl
  · decide

/-! ## Theorems for claim C5 -/

theorem bucketOf_assocAppend (k v k2 : String) :
    ∀ (m : List (String × List String)),
      bucketOf k2 (assocAppend k v m) =
        if k2 = k then bucketOf k2 m ++ [v] else bucketOf k2 m := by
  intro m
  induction m with
  | nil =>
    by_cases h : k2 = k
    · subst h
      simp [assocAppend, bucketOf, dictGet?]
    · have h' : ¬ k = k2 := fun hh => h hh.symm
      simp [assocAppend, bucketOf, dictGet?, h, h']
  | cons p rest ih =>
    obtain ⟨kp, vs⟩ := p
    by_cases hp : kp = k
    · subst hp
      by_cases h2 : kp = k2
      · subst h2
        simp [assocAppend, bucketOf, dictGet?]
      · have h2' : ¬ k2 = kp := fun hh => h2 hh.symm
        simp [assocAppend, bucketOf, dictGet?, h2, h2']
    · by_cases h2 : kp = k2
      · subst h2
        have hp' : ¬ kp = k := hp
        simp [assocAppend, bucketOf, dictGet?, hp']
      · simp only [assocAppend, bucketOf, dictGet?, if_neg hp, if_neg h2]
        simpa [bucketOf] using ih

theorem bucketOf_foldl_assocAppend (v k : String) :
    ∀ (xs : List String) (m : List (String × List String)),
      bucketOf k (xs.foldl (fun m2 x => assocAppend x v m2) m) =
        bucketOf k m ++ List.replicate (xs.count k) v := by
  intro xs
  induction xs with
  | nil => intro m; simp
  | cons x xs ih =>
    intro m
    simp only [List.foldl_cons]
    rw [ih (assocAppend x v m), bucketOf_assocAppend x v k m]
    by_cases h : k = x
    · subst h
      rw [if_pos rfl, List.count_cons_self]
      simp [List.append_assoc, List.replicate_succ]
    · rw [if_neg h, List.count_cons_of_ne h]

theorem flatRep_append (c : String) :
    ∀ (l₁ l₂ : List JvmLib), flatRep c (l₁ ++ l₂) = flatRep c l₁ ++ flatRep c l₂ := by
  intro l₁ l₂
  induction l₁ with
  | nil => simp [flatRep]
  | cons x xs ih => simp [flatRep, ih, List.append_assoc]

theorem bucketOf_build_class_to_rule (c : String) :
    ∀ (libs : List JvmLib) (m : List (String × List String)),
      bucketOf c (libs.foldl
        (fun m lib => lib.classes.foldl (fun m2 cc => assocAppend cc lib.name m2) m) m) =
        bucketOf c m ++ flatRep c libs := by
  intro libs
  induction libs with
  | nil => intro m; simp [flatRep]
  | cons lib ls ih =>
    intro m
    simp only [List.foldl_cons]
    rw [ih, bucketOf_foldl_assocAppend lib.name c lib.classes m]
    simp [flatRep, List.append_assoc]

theorem classProviders_eq (libs : List JvmLib) (c : String) :
    bucketOf c (build_class_to_rule libs) = flatRep c libs := by
  have h := bucketOf_build_class_to_rule c libs []
  simpa [build_class_to_rule, bucketOf, dictGet?] using h

theorem dictGet?_eq_some_of_bucket_ne (k : String) (m : List (String × List String))
    (h : bucketOf k m ≠ []) : dictGet? k m = some (bucketOf k m) := by
  unfold bucketOf at *
  cases hg : dictGet? k m with
  | none => rw [hg] at h; simp at h
  | some vs => rfl

theorem mem_of_dictGet?_eq_some {α : Type} (k : String) (v : α) :
    ∀ (m : List (String × α)), dictGet? k m = some v → (k, v) ∈ m := by
  intro m
  induction m with
  | nil => intro h; simp [dictGet?] at h
  | cons p rest ih =>
    obtain ⟨k2, v2⟩ := p
    intro h
    simp only [dictGet?] at h
    split at h
    · rename_i heq
      injection h with hv
      subst hv
      subst heq
      exact List.mem_cons_self _ _
    · exact List.mem_cons_of_mem _ (ih h)

theorem build_deps_single (m : List (String × List String)) (c : String) :
    build_deps m [c] = (find_bazel_rule_for_class m c).foldl (fun dp d => assocAppend d c dp) [] := by
  simp [build_deps]

theorem provider_emitted (m : List (String × List String)) (C d : String)
    (hmem : d ∈ bucketOf C m) :
    ∃ cs, (d, cs) ∈ resolve m [] [C] ∧ C ∈ cs := by
  have hb : bucketOf d (build_deps m [C]) =
      List.replicate ((bucketOf C m).count d) C := by
    rw [build_deps_single]
    have h := bucketOf_foldl_assocAppend C d (find_bazel_rule_for_class m C) []
    simpa [find_bazel_rule_for_class, bucketOf, dictGet?] using h
  have hcount : 0 < (bucketOf C m).count d := List.count_pos_iff.mpr hmem
  have hne : bucketOf d (build_deps m [C]) ≠ [] := by
    rw [hb]
    obtain ⟨n, hn⟩ : ∃ n, (bucketOf C m).count d = n + 1 :=
      ⟨(bucketOf C m).count d - 1, by omega⟩
    rw [hn, List.replicate_succ]
    simp
  have hg := dictGet?_eq_some_of_bucket_ne d (build_deps m [C]) hne
  have hmemd := mem_of_dictGet?_eq_some d _ (build_deps m [C]) hg
  refine ⟨bucketOf d (build_deps m [C]), ?_, ?_⟩
  · unfold resolve
    refine List.mem_map.mpr
      ⟨(d, bucketOf d (build_deps m [C])), (mem_sortByKey_iff _ _).mpr hmemd, ?_⟩
    simp [substitute_alias, dictGet?]
  · rw [hb]
    exact List.mem_replicate.mpr ⟨by omega, rfl⟩

/-- C5: if class `C` occurs in the inventories of two libraries `X` and `Y`
(`X` inserted before `Y` during index construction), then the per-class
provider list contains `X.name` before `Y.name` (insertion order
preserved), and resolving a target whose class set is exactly `{C}` emits
both `X` and `Y` as candidate providers, each annotated with `C` among its
justifying classes — neither is dropped. -/
theorem C5_theorem (A B D : List JvmLib) (X Y : JvmLib) (C : String)
    (hCX : C ∈ X.classes) (hCY : C ∈ Y.classes) (hXY : X.name ≠ Y.name) :
    (∃ p1 p2 p3, bucketOf C (build_class_to_rule (A ++ X :: B ++ Y :: D)) =
        p1 ++ X.name :: p2 ++ Y.name :: p3) ∧
    (∃ csX, (X.name, csX) ∈ resolve (build_class_to_rule (A ++ X :: B ++ Y :: D)) [] [C] ∧
        C ∈ csX) ∧
    (∃ csY, (Y.name, csY) ∈ resolve (build_class_to_rule (A ++ X :: B ++ Y :: D)) [] [C] ∧
        C ∈ csY) := by
  obtain ⟨nX, hnX⟩ : ∃ n, X.classes.count C = n + 1 := by
    have hpos := List.count_pos_iff.mpr hCX
    exact ⟨X.classes.count C - 1, by omega⟩
  obtain ⟨nY, hnY⟩ : ∃ n, Y.classes.count C = n + 1 := by
    have hpos := List.count_pos_iff.mpr hCY
    exact ⟨Y.classes.count C - 1, by omega⟩
  have hshape : bucketOf C (build_class_to_rule (A ++ X :: B ++ Y :: D)) =
      (flatRep C A ++ X.name :: (List.replicate nX X.name ++ flatRep C B)) ++
        Y.name :: (List.replicate nY Y.name ++ flatRep C D) := by
    rw [classProviders_eq]
    simp [flatRep, flatRep_append, hnX, hnY, List.replicate_succ, List.append_assoc]
  refine ⟨⟨flatRep C A, List.replicate nX X.name ++ flatRep C B,
    List.replicate nY Y.name ++ flatRep C D, hshape⟩, ?_, ?_⟩
  · exact provider_emitted (build_class_to_rule (A ++ X :: B ++ Y :: D)) C X.name
      (by rw [hshape]; simp)
  · exact provider_emitted (build_class_to_rule (A ++ X :: B ++ Y :: D)) C Y.name
      (by rw [hshape]; simp)

/-- C5 witness: two libraries `//x:x` and `//y:y` both providing
`com.a.C` are both emitted, in insertion order in the provider list. -/
theorem C5_witness :
    (∃ p1 p2 p3,
      bucketOf "com.a.C" (build_class_to_rule
        ([] ++ (⟨"//x:x", [], none, none, ["com.a.C"]⟩ : JvmLib) :: [] ++
         (⟨"//y:y", [], none, none, ["com.a.C"]⟩ : JvmLib) :: [])) =
        p1 ++ "//x:x" :: p2 ++ "//y:y" :: p3) ∧
    (∃ csX, ("//x:x", csX) ∈ resolve (build_class_to_rule
        ([] ++ (⟨"//x:x", [], none, none, ["com.a.C"]⟩ : JvmLib) :: [] ++
         (⟨"//y:y", [], none, none, ["com.a.C"]⟩ : JvmLib) :: [])) [] ["com.a.C"] ∧
      "com.a.C" ∈ csX) ∧
    (∃ csY, ("//y:y", csY) ∈ resolve (build_class_to_rule
        ([] ++ (⟨"//x:x", [], none, none, ["com.a.C"]⟩ : JvmLib) :: [] ++
         (⟨"//y:y", [], none, none, ["com.a.C"]⟩ : JvmLib) :: [])) [] ["com.a.C"] ∧
      "com.a.C" ∈ csY) :=
  C5_theorem [] [] [] ⟨"//x:x", [], none, none, ["com.a.C"]⟩
    ⟨"//y:y", [], none, none, ["com.a.C"]⟩ "com.a.C" (by decide) (by decide) (by decide)

/-! ## Theorems for claim C6 -/

theorem isPrefixOf_append_self (p r : List Char) : p.isPrefixOf (p ++ r) = true := by
  induction p with
  | nil => simp [List.isPrefixOf]
  | cons c cs ih => simp [List.isPrefixOf, ih]

theorem takeWhile_append_cons (p : Char → Bool) (l₁ : List Char) (x : Char) (l₂ : List Char)
    (h1 : ∀ c ∈ l₁, p c = true) (h2 : p x = false) :
    (l₁ ++ x :: l₂).takeWhile p = l₁ := by
  induction l₁ with
  | nil => simp [List.takeWhile_cons, h2]
  | cons c cs ih =>
    have hc := h1 c (List.mem_cons_self c cs)
    simp [List.takeWhile_cons, hc, ih (fun d hd => h1 d (List.mem_cons_of_mem c hd))]

theorem dropWhile_append_cons (p : Char → Bool) (l₁ : List Char) (x : Char) (l₂ : List Char)
    (h1 : ∀ c ∈ l₁, p c = true) (h2 : p x = false) :
    (l₁ ++ x :: l₂).dropWhile p = x :: l₂ := by
  induction l₁ with
  | nil => simp [List.dropWhile_cons, h2]
  | cons c cs ih =>
    have hc := h1 c (List.mem_cons_self c cs)
    simp [List.dropWhile_cons, hc, ih (fun d hd => h1 d (List.mem_cons_of_mem c hd))]

theorem dropWhile_append_cons_false (p : Char → Bool) (l₁ : List Char) (x : Char)
    (l₂ : List Char) (h1 : ∀ c ∈ l₁, p c = false) (h2 : p x = false) :
    (l₁ ++ x :: l₂).dropWhile p = l₁ ++ x :: l₂ := by
  cases l₁ with
  | nil => simp [List.dropWhile_cons, h2]
  | cons c cs =>
    have hc := h1 c (List.mem_cons_self c cs)
    simp [List.dropWhile_cons, hc]

theorem dropWhile_eq_self_of_false (p : Char → Bool) (l : List Char)
    (h : ∀ c ∈ l, p c = false) : l.dropWhile p = l := by
  cases l with
  | nil => rfl
  | cons c cs => simp [List.dropWhile_cons, h c (List.mem_cons_self c cs)]

theorem stripL_eq_self (l : List Char) (h : ∀ c ∈ l, pyIsSpace c = false) :
    stripL l = l := by
  unfold stripL
  rw [dropWhile_eq_self_of_false _ _ h,
    dropWhile_eq_self_of_false _ _ (fun c hc => h c (List.mem_reverse.mp hc)),
    List.reverse_reverse]

theorem stripL_cons_space (l : List Char) (h : ∀ c ∈ l, pyIsSpace c = false) :
    stripL (' ' :: l) = l := by
  unfold stripL
  have h1 : (' ' :: l).dropWhile pyIsSpace = l.dropWhile pyIsSpace := by
    simp [List.dropWhile_cons, show pyIsSpace ' ' = true from rfl]
  rw [h1, dropWhile_eq_self_of_false _ _ h,
    dropWhile_eq_self_of_false _ _ (fun c hc => h c (List.mem_reverse.mp hc)),
    List.reverse_reverse]

theorem stripL_eq_self_of_ends (c1 c2 : Char) (l : List Char)
    (h1 : pyIsSpace c1 = false) (h2 : pyIsSpace c2 = false) :
    stripL (c1 :: l ++ [c2]) = c1 :: l ++ [c2] := by
  unfold stripL
  have e1 : (c1 :: l ++ [c2]).dropWhile pyIsSpace = c1 :: l ++ [c2] := by
    simp [List.dropWhile_cons, h1]
  rw [e1]
  have e2 : (c1 :: l ++ [c2]).reverse = c2 :: (l.reverse ++ [c1]) := by simp
  rw [e2]
  have e3 : (c2 :: (l.reverse ++ [c1])).dropWhile pyIsSpace = c2 :: (l.reverse ++ [c1]) := by
    simp [List.dropWhile_cons, h2]
  rw [e3, ← e2, List.reverse_reverse]

theorem splitCharL_not_mem (sep : Char) (l : List Char)
    (h : ∀ c ∈ l, (c == sep) = false) : splitCharL sep l = [l] := by
  induction l with
  | nil => rfl
  | cons c cs ih =>
    have hc := h c (List.mem_cons_self c cs)
    simp [splitCharL, hc, ih (fun d hd => h d (List.mem_cons_of_mem c hd))]

theorem splitCharL_append (sep : Char) (l₁ l₂ : List Char)
    (h : ∀ c ∈ l₁, (c == sep) = false) :
    splitCharL sep (l₁ ++ sep :: l₂) = l₁ :: splitCharL sep l₂ := by
  induction l₁ with
  | nil => simp [splitCharL]
  | cons c cs ih =>
    have hc := h c (List.mem_cons_self c cs)
    simp [splitCharL, hc, ih (fun d hd => h d (List.mem_cons_of_mem c hd))]

theorem rstripCharL_concat (ch x : Char) (l₁ l₂ : List Char)
    (h1 : ∀ c ∈ l₂, (c == ch) = false) (h2 : (x == ch) = false) :
    rstripCharL ch ((l₁ ++ x :: l₂) ++ [ch]) = l₁ ++ x :: l₂ := by
  unfold rstripCharL
  have e1 : ((l₁ ++ x :: l₂) ++ [ch]).reverse = ch :: (l₂.reverse ++ x :: l₁.reverse) := by
    simp
  rw [e1]
  have e2 : (ch :: (l₂.reverse ++ x :: l₁.reverse)).dropWhile (fun c => c == ch) =
      (l₂.reverse ++ x :: l₁.reverse).dropWhile (fun c => c == ch) := by
    simp [List.dropWhile_cons]
  rw [e2, dropWhile_append_cons_false _ _ _ _ (fun c hc => h1 c (List.mem_reverse.mp hc)) h2]
  simp

theorem isEmpty_append_cons (l : List Char) (x : Char) (l' : List Char) :
    (l ++ x :: l').isEmpty = false := by
  cases l <;> rfl

theorem contains_append_cons (l₁ : List Char) (c : Char) (l₂ : List Char) :
    (l₁ ++ c :: l₂).contains c = true := by
  have hmem : c ∈ l₁ ++ c :: l₂ := by simp
  simpa [List.contains] using List.elem_iff.mpr hmem

theorem mk_eq_of_data (l : List Char) (s : String) (h : l = s.data) : (⟨l⟩ : String) = s := by
  cases s; cases h; rfl

theorem str_data_append (a b : String) : (a ++ b).data = a.data ++ b.data := by
  cases a; cases b; rfl

/-- C6: every import line of the exact multi-class shorthand form
`import pkg.\x7bA, B, C\x7d` — package free of whitespace and left braces,
members free of whitespace, commas and braces — expands to exactly
`[pkg.A, pkg.B, pkg.C]`: one yielded class name per listed member, with no
residual brace and no residual whitespace in any yielded name. -/
theorem C6_theorem (pkg A B C : String)
    (hpkg : ∀ c ∈ pkg.data, pyIsSpace c = false ∧ c ≠ '\x7b')
    (hA : ∀ c ∈ A.data, pyIsSpace c = false ∧ c ≠ ',' ∧ c ≠ '\x7b' ∧ c ≠ '\x7d')
    (hB : ∀ c ∈ B.data, pyIsSpace c = false ∧ c ≠ ',' ∧ c ≠ '\x7b' ∧ c ≠ '\x7d')
    (hC : ∀ c ∈ C.data, pyIsSpace c = false ∧ c ≠ ',' ∧ c ≠ '\x7b' ∧ c ≠ '\x7d') :
    imports_from_line
        ("import " ++ pkg ++ ".\x7b" ++ A ++ ", " ++ B ++ ", " ++ C ++ "\x7d") =
      some [pkg ++ "." ++ A, pkg ++ "." ++ B, pkg ++ "." ++ C] := by
  have hLdata : ("import " ++ pkg ++ ".\x7b" ++ A ++ ", " ++ B ++ ", " ++ C ++ "\x7d").data =
      "import ".data ++ (pkg.data ++ '.' :: '\x7b' ::
        (A.data ++ ',' :: ' ' :: (B.data ++ ',' :: ' ' :: (C.data ++ ['\x7d'])))) := by
    simp [str_data_append, List.append_assoc,
      show (".\x7b" : String).data = ['.', '\x7b'] from rfl,
      show (", " : String).data = [',', ' '] from rfl,
      show ("\x7d" : String).data = ['\x7d'] from rfl]
  have hstart : pyStartsWith
      ("import " ++ pkg ++ ".\x7b" ++ A ++ ", " ++ B ++ ", " ++ C ++ "\x7d") "import " = true := by
    unfold pyStartsWith
    rw [hLdata]
    exact isPrefixOf_append_self _ _
  have hshape1 : "import ".data ++ (pkg.data ++ '.' :: '\x7b' ::
        (A.data ++ ',' :: ' ' :: (B.data ++ ',' :: ' ' :: (C.data ++ ['\x7d'])))) =
      'i' :: ('m' :: 'p' :: 'o' :: 'r' :: 't' :: ' ' :: (pkg.data ++ '.' :: '\x7b' ::
        (A.data ++ ',' :: ' ' :: (B.data ++ ',' :: ' ' :: C.data)))) ++ ['\x7d'] := by
    simp [show ("import " : String).data = ['i', 'm', 'p', 'o', 'r', 't', ' '] from rfl,
      List.append_assoc]
  have hstrip : stripL ("import ".data ++ (pkg.data ++ '.' :: '\x7b' ::
        (A.data ++ ',' :: ' ' :: (B.data ++ ',' :: ' ' :: (C.data ++ ['\x7d']))))) =
      "import ".data ++ (pkg.data ++ '.' :: '\x7b' ::
        (A.data ++ ',' :: ' ' :: (B.data ++ ',' :: ' ' :: (C.data ++ ['\x7d'])))) := by
    rw [hshape1]
    exact stripL_eq_self_of_ends 'i' '\x7d' _ (by decide) (by decide)
  have hpkg1 : ∀ c ∈ pkg.data, pyIsSpace c = false := fun c hc => (hpkg c hc).1
  have hsplitWs : splitWs1L ("import ".data ++ (pkg.data ++ '.' :: '\x7b' ::
        (A.data ++ ',' :: ' ' :: (B.data ++ ',' :: ' ' :: (C.data ++ ['\x7d']))))) =
      [['i', 'm', 'p', 'o', 'r', 't'],
       pkg.data ++ '.' :: '\x7b' ::
         (A.data ++ ',' :: ' ' :: (B.data ++ ',' :: ' ' :: (C.data ++ ['\x7d'])))] := by
    have hshape2 : "import ".data ++ (pkg.data ++ '.' :: '\x7b' ::
          (A.data ++ ',' :: ' ' :: (B.data ++ ',' :: ' ' :: (C.data ++ ['\x7d'])))) =
        ['i', 'm', 'p', 'o', 'r', 't'] ++ ' ' :: (pkg.data ++ '.' :: '\x7b' ::
          (A.data ++ ',' :: ' ' :: (B.data ++ ',' :: ' ' :: (C.data ++ ['\x7d'])))) := by
      simp [show ("import " : String).data = ['i', 'm', 'p', 'o', 'r', 't', ' '] from rfl]
    simp only [splitWs1L]
    rw [hshape2]
    rw [show (['i', 'm', 'p', 'o', 'r', 't'] ++ ' ' :: (pkg.data ++ '.' :: '\x7b' ::
          (A.data ++ ',' :: ' ' :: (B.data ++ ',' :: ' ' ::
            (C.data ++ ['\x7d']))))).dropWhile pyIsSpace =
        ['i', 'm', 'p', 'o', 'r', 't'] ++ ' ' :: (pkg.data ++ '.' :: '\x7b' ::
          (A.data ++ ',' :: ' ' :: (B.data ++ ',' :: ' ' :: (C.data ++ ['\x7d'])))) from rfl]
    rw [show (['i', 'm', 'p', 'o', 'r', 't'] ++ ' ' :: (pkg.data ++ '.' :: '\x7b' ::
          (A.data ++ ',' :: ' ' :: (B.data ++ ',' :: ' ' ::
            (C.data ++ ['\x7d']))))).takeWhile (fun c => !pyIsSpace c) =
        ['i', 'm', 'p', 'o', 'r', 't'] from rfl]
    rw [show (['i', 'm', 'p', 'o', 'r', 't'] ++ ' ' :: (pkg.data ++ '.' :: '\x7b' ::
          (A.data ++ ',' :: ' ' :: (B.data ++ ',' :: ' ' ::
            (C.data ++ ['\x7d']))))).dropWhile (fun c => !pyIsSpace c) =
        ' ' :: (pkg.data ++ '.' :: '\x7b' ::
          (A.data ++ ',' :: ' ' :: (B.data ++ ',' :: ' ' :: (C.data ++ ['\x7d'])))) from rfl]
    rw [show (' ' :: (pkg.data ++ '.' :: '\x7b' ::
          (A.data ++ ',' :: ' ' :: (B.data ++ ',' :: ' ' ::
            (C.data ++ ['\x7d']))))).dropWhile pyIsSpace =
        (pkg.data ++ '.' :: '\x7b' ::
          (A.data ++ ',' :: ' ' :: (B.data ++ ',' :: ' ' ::
            (C.data ++ ['\x7d'])))).dropWhile pyIsSpace from rfl]
    rw [dropWhile_append_cons_false pyIsSpace pkg.data '.' _ hpkg1 (by decide)]
    rw [show (['i', 'm', 'p', 'o', 'r', 't'] : List Char).isEmpty = false from rfl]
    rw [isEmpty_append_cons]
    rfl
  have hRESTnb : ∀ c ∈ (A.data ++ ',' :: ' ' :: (B.data ++ ',' :: ' ' :: (C.data ++ ['\x7d']))),
      (c == '\x7b') = false := by
    intro c hc
    simp only [List.mem_append, List.mem_cons, List.not_mem_nil, or_false] at hc
    rcases hc with h | h | h | h | h | h | h | h
    · exact beq_eq_false_iff_ne.mpr (hA c h).2.2.1
    · subst h; decide
    · subst h; decide
    · exact beq_eq_false_iff_ne.mpr (hB c h).2.2.1
    · subst h; decide
    · subst h; decide
    · exact beq_eq_false_iff_ne.mpr (hC c h).2.2.1
    · subst h; decide
  have hcont : (pkg.data ++ '.' :: '\x7b' ::
      (A.data ++ ',' :: ' ' :: (B.data ++ ',' :: ' ' :: (C.data ++ ['\x7d'])))).contains
      '\x7b' = true := by
    rw [show pkg.data ++ '.' :: '\x7b' ::
        (A.data ++ ',' :: ' ' :: (B.data ++ ',' :: ' ' :: (C.data ++ ['\x7d']))) =
      (pkg.data ++ ['.']) ++ '\x7b' ::
        (A.data ++ ',' :: ' ' :: (B.data ++ ',' :: ' ' :: (C.data ++ ['\x7d']))) from by simp]
    exact contains_append_cons _ _ _
  have hdotfree : ∀ c ∈ pkg.data ++ ['.'], (c == '\x7b') = false := by
    intro c hc
    rcases List.mem_append.mp hc with h | h
    · exact beq_eq_false_iff_ne.mpr (hpkg c h).2
    · simp only [List.mem_singleton] at h
      subst h; decide
  have hsplit1 : splitCharL '\x7b' (pkg.data ++ '.' :: '\x7b' ::
      (A.data ++ ',' :: ' ' :: (B.data ++ ',' :: ' ' :: (C.data ++ ['\x7d'])))) =
      (pkg.data ++ ['.']) ::
        [A.data ++ ',' :: ' ' :: (B.data ++ ',' :: ' ' :: (C.data ++ ['\x7d']))] := by
    rw [show pkg.data ++ '.' :: '\x7b' ::
        (A.data ++ ',' :: ' ' :: (B.data ++ ',' :: ' ' :: (C.data ++ ['\x7d']))) =
      (pkg.data ++ ['.']) ++ '\x7b' ::
        (A.data ++ ',' :: ' ' :: (B.data ++ ',' :: ' ' :: (C.data ++ ['\x7d']))) from by simp]
    rw [splitCharL_append '\x7b' _ _ hdotfree]
    rw [splitCharL_not_mem '\x7b' _ hRESTnb]
  have hrstrip : rstripCharL '\x7d'
      (A.data ++ ',' :: ' ' :: (B.data ++ ',' :: ' ' :: (C.data ++ ['\x7d']))) =
      (A.data ++ ',' :: ' ' :: (B.data ++ [','])) ++ ' ' :: C.data := by
    rw [show A.data ++ ',' :: ' ' :: (B.data ++ ',' :: ' ' :: (C.data ++ ['\x7d'])) =
      ((A.data ++ ',' :: ' ' :: (B.data ++ [','])) ++ ' ' :: C.data) ++ ['\x7d'] from by simp]
    exact rstripCharL_concat '\x7d' ' ' _ _
      (fun c hc => beq_eq_false_iff_ne.mpr (hC c hc).2.2.2) (by decide)
  have hBfree : ∀ c ∈ (' ' :: B.data), (c == ',') = false := by
    intro c hc
    rcases List.mem_cons.mp hc with rfl | h
    · decide
    · exact beq_eq_false_iff_ne.mpr (hB c h).2.1
  have hCfree : ∀ c ∈ (' ' :: C.data), (c == ',') = false := by
    intro c hc
    rcases List.mem_cons.mp hc with rfl | h
    · decide
    · exact beq_eq_false_iff_ne.mpr (hC c h).2.1
  have hsplit2 : splitCharL ',' ((A.data ++ ',' :: ' ' :: (B.data ++ [','])) ++ ' ' :: C.data) =
      A.data :: (' ' :: B.data) :: [' ' :: C.data] := by
    rw [show (A.data ++ ',' :: ' ' :: (B.data ++ [','])) ++ ' ' :: C.data =
      A.data ++ ',' :: ((' ' :: B.data) ++ ',' :: (' ' :: C.data)) from by simp]
    rw [splitCharL_append ',' A.data _
      (fun c hc => beq_eq_false_iff_ne.mpr (hA c hc).2.1)]
    rw [splitCharL_append ',' (' ' :: B.data) _ hBfree]
    rw [splitCharL_not_mem ',' _ hCfree]
  have hstripA : stripL A.data = A.data := stripL_eq_self _ (fun c hc => (hA c hc).1)
  have hstripB : stripL (' ' :: B.data) = B.data := stripL_cons_space _ (fun c hc => (hB c hc).1)
  have hstripC : stripL (' ' :: C.data) = C.data := stripL_cons_space _ (fun c hc => (hC c hc).1)
  have hmkA : (⟨(pkg.data ++ ['.']) ++ A.data⟩ : String) = pkg ++ "." ++ A :=
    mk_eq_of_data _ _ (by
      simp [str_data_append, show ("." : String).data = ['.'] from rfl, List.append_assoc])
  have hmkB : (⟨(pkg.data ++ ['.']) ++ B.data⟩ : String) = pkg ++ "." ++ B :=
    mk_eq_of_data _ _ (by
      simp [str_data_append, show ("." : String).data = ['.'] from rfl, List.append_assoc])
  have hmkC : (⟨(pkg.data ++ ['.']) ++ C.data⟩ : String) = pkg ++ "." ++ C :=
    mk_eq_of_data _ _ (by
      simp [str_data_append, show ("." : String).data = ['.'] from rfl, List.append_assoc])
  unfold imports_from_line
  rw [if_pos hstart, hLdata, hstrip, hsplitWs]
  simp only [hcont, if_true, hsplit1, hrstrip, hsplit2, List.map_cons, List.map_nil,
    hstripA, hstripB, hstripC, hmkA, hmkB, hmkC]

/-- C6 witness: `import com.foo.\x7bA, B, C\x7d` expands to
`com.foo.A`, `com.foo.B`, `com.foo.C`. -/
theorem C6_witness :
    imports_from_line
        ("import " ++ "com.foo" ++ ".\x7b" ++ "A" ++ ", " ++ "B" ++ ", " ++ "C" ++ "\x7d") =
      some ["com.foo" ++ "." ++ "A", "com.foo" ++ "." ++ "B", "com.foo" ++ "." ++ "C"] :=
  C6_theorem "com.foo" "A" "B" "C" (by decide) (by decide) (by decide) (by decide)

end Autodeps
